import Mathlib

/-!
Verification of the reference-counted handle graph of `rclpy_common/src/handle.c`.

Shallow embedding conventions:
* A C pointer to a `rclpy_handle_t` is modelled as a `Nat` id; the id `0` models
  the NULL pointer.  The heap of live handle records is an association list
  `State := List (Nat × Handle)`; lookup takes the first match.
* `size_t` arithmetic: `ref_count` is a `Nat` together with the wrapping
  decrement `decWrap` (the C code does `--handle->ref_count` on an unsigned
  value, so decrementing `0` yields `2^64 - 1`) and the wrapping increment
  `incWrap`.  The dependency-array length `num_of_dependencies` never comes
  near `2^64` in any state representable in memory, so it is kept as a plain
  `Nat`.
* The C struct field `dependencies` (a possibly-NULL array pointer) is an
  `Option (List Nat)`; `num_of_dependencies` is the separate length field,
  exactly as in the struct.  `realloc` preserving the old contents is modelled
  by list append for holds of the array contents.
* Fallible allocation is an explicit `Bool` argument (`true` = the allocator
  call succeeds); assertion failure and use of a dangling (non-null, absent)
  pointer have no defined C behaviour and are modelled as `none`.
* Destructor callbacks are opaque: a handle stores a destructor id (`0`
  models a NULL function pointer) and invoking it is recorded as a trace
  event `Event.destruct handleId destructorId resourcePtr`.  Memory released
  by `allocator.deallocate` is recorded as `freeDeps` / `freeHandle` events,
  and every processed (non-NULL, live) `_rclpy_handle_dec_ref` call records a
  `hit` event for the decrement it performs.
-/

namespace HandleC

/-- `2^64`, the modulus of `size_t` arithmetic on the target platform. -/
def sizeTMod : Nat := 2 ^ 64

/-- Wrapping decrement of a `size_t` value (the C `--` on an unsigned). -/
def decWrap (n : Nat) : Nat := if n = 0 then sizeTMod - 1 else n - 1

/-- Wrapping increment of a `size_t` value (the C `++` on an unsigned). -/
def incWrap (n : Nat) : Nat := (n + 1) % sizeTMod

/-- `decWrap` iterated `k` times. -/
def iterDec : Nat → Nat → Nat
  | 0, c => c
  | k + 1, c => iterDec k (decWrap c)

/-- How many of the first `k` iterates `decWrap c, decWrap (decWrap c), ...`
are zero; this counts the `ref_count` transitions to `0` produced by `k`
decrements starting from count `c`. -/
def zerosIn : Nat → Nat → Nat
  | _, 0 => 0
  | c, k + 1 => (if decWrap c = 0 then 1 else 0) + zerosIn (decWrap c) k

/-- The `struct rclpy_handle_t` record of `handle.c`. -/
structure Handle where
  ptr : Nat
  ref_count : Nat
  dependencies : Option (List Nat)
  num_of_dependencies : Nat
  destructor : Nat
deriving DecidableEq, Repr

/-- The contents of the (possibly NULL) dependency array. -/
def depsArr (h : Handle) : List Nat := h.dependencies.getD []

/-- The assertion of `_rclpy_handle_dec_ref` (handle.c lines 93-95):
the array pointer is non-NULL exactly when the recorded length is nonzero. -/
def depsOk (h : Handle) : Bool :=
  (h.num_of_dependencies != 0 && h.dependencies.isSome) ||
    (h.num_of_dependencies == 0 && h.dependencies.isNone)

/-- The heap of live handle records, keyed by handle id (address). -/
abbrev State := List (Nat × Handle)

/-- Read the record at address `x` (first match). -/
def getH : State → Nat → Option Handle
  | [], _ => none
  | (k, h) :: rest, x => if k = x then some h else getH rest x

/-- Overwrite the record at address `x` (first match only; a no-op when the
address is absent). -/
def setH : State → Nat → Handle → State
  | [], _, _ => []
  | (k, h) :: rest, x, h' => if k = x then (k, h') :: rest else (k, h) :: setH rest x h'

/-- Deallocate the record at address `x`. -/
def eraseH : State → Nat → State
  | [], _ => []
  | (k, h) :: rest, x => if k = x then eraseH rest x else (k, h) :: eraseH rest x

/-- Observable events of a run: `hit` records one executed decrement of a
handle's `ref_count`, `destruct` one destructor invocation, `freeDeps` /
`freeHandle` the two `allocator.deallocate` calls. -/
inductive Event where
  | hit (id : Nat)
  | destruct (id dtor ptr : Nat)
  | freeDeps (id : Nat)
  | freeHandle (id : Nat)
deriving DecidableEq, Repr

/-- `if (handle->destructor) { handle->destructor(handle->ptr); }` -/
def dtorEvents (id : Nat) (h : Handle) : List Event :=
  if h.destructor ≠ 0 then [Event.destruct id h.destructor h.ptr] else []

/-- `_rclpy_create_handle` (handle.c lines 34-51): `allocOk` is the outcome of
`allocator.zero_allocate`.  The preconditions `assert(ptr)` and
`assert(destructor)` are contract obligations of the caller and appear as
hypotheses of the theorems, not as checks of the code. -/
def createHandle (allocOk : Bool) (p dtor : Nat) : Option Handle :=
  if allocOk then
    let handle : Handle :=
      { ptr := 0, ref_count := 0, dependencies := none, num_of_dependencies := 0, destructor := 0 }
    some { handle with ptr := p, ref_count := handle.ref_count + 1, destructor := dtor }
  else none

/-- `_rclpy_create_handle` together with registering the fresh record at the
fresh address `newId`; no event is emitted (in particular no destructor runs). -/
def createInState (allocOk : Bool) (st : State) (newId p dtor : Nat) :
    Option (State × List Event) :=
  (createHandle allocOk p dtor).map (fun h => ((newId, h) :: st, ([] : List Event)))

/-- The `rcutils_ret_t` result of `_rclpy_handle_add_dependency`. -/
inductive Ret where
  | ok
  | error
deriving DecidableEq, Repr

/-- `_rclpy_handle_add_dependency` (handle.c lines 58-78): `allocOk` is the
outcome of `allocator.reallocate`.  On reallocation failure the function
returns `RCUTILS_RET_ERROR` having mutated nothing.  On success it writes
`dependency` at index `num_of_dependencies` of the grown array, increments
`num_of_dependencies`, installs the new array, and then increments
`dependency->ref_count` (reading the record as it stands at that point, which
matters when `dependent = dependency`). -/
def addDependency (allocOk : Bool) (st : State) (dependent dependency : Nat) :
    Option (State × Ret) :=
  match getH st dependent, getH st dependency with
  | some hA, some _ =>
    if allocOk then
      let newList := depsArr hA ++ [dependency]
      let st1 := setH st dependent
        { hA with dependencies := some newList,
                  num_of_dependencies := hA.num_of_dependencies + 1 }
      match getH st1 dependency with
      | some hB => some (setH st1 dependency { hB with ref_count := incWrap hB.ref_count }, Ret.ok)
      | none => none
    else some (st, Ret.error)
  | _, _ => none

/-- One step of the dependency loop of `_rclpy_handle_dec_ref`, parameterized
by the recursive call `f` available at the current stack depth. -/
def runList (f : State → Nat → Option (State × List Event)) :
    State → List Nat → Option (State × List Event)
  | st, [] => some (st, [])
  | st, d :: rest =>
    match f st d with
    | none => none
    | some (st2, tr1) =>
      match runList f st2 rest with
      | none => none
      | some (st3, tr2) => some (st3, tr1 ++ tr2)

/-- `_rclpy_handle_dec_ref` (handle.c lines 87-108), with a fuel bound on the
recursion depth (`none` = fuel exhausted, assertion failure, or dangling
pointer).  A NULL argument returns immediately; otherwise the assertion of
lines 93-95 is checked, `ref_count` is decremented (`hit` event), and if the
result is zero the destructor runs, each dependency entry is released in
order, and the array and the record are deallocated. -/
def decRef (fuel : Nat) (st : State) (target : Nat) : Option (State × List Event) :=
  if target = 0 then some (st, [])
  else
    match fuel with
    | 0 => none
    | fuel' + 1 =>
      match getH st target with
      | none => none
      | some h =>
        if depsOk h then
          let c := decWrap h.ref_count
          let st1 := setH st target { h with ref_count := c }
          if c = 0 then
            match runList (decRef fuel') st1 (depsArr h) with
            | none => none
            | some (st2, trDeps) =>
              some (eraseH st2 target,
                Event.hit target :: dtorEvents target h ++ trDeps ++
                  [Event.freeDeps target, Event.freeHandle target])
          else some (st1, [Event.hit target])
        else none

/-- The dependency loop of `_rclpy_handle_dec_ref` at remaining depth `fuel`. -/
def decRefList (fuel : Nat) (st : State) (l : List Nat) : Option (State × List Event) :=
  runList (decRef fuel) st l

/-- `_rclpy_handle_get_pointer` (handle.c lines 131-138). -/
def getPointer (st : State) (id : Nat) : Option Nat :=
  if id = 0 then none else (getH st id).map Handle.ptr

/-- Count of executed decrements of handle `x` in a trace. -/
def hitsOf (tr : List Event) (x : Nat) : Nat :=
  tr.countP (fun e => match e with | Event.hit i => i = x | _ => false)

/-- Count of destructor invocations attributed to handle `x` in a trace. -/
def destructsOf (tr : List Event) (x : Nat) : Nat :=
  tr.countP (fun e => match e with | Event.destruct i _ _ => i = x | _ => false)

/-- Count of record deallocations of handle `x` in a trace. -/
def freesOf (tr : List Event) (x : Nat) : Nat :=
  tr.countP (fun e => match e with | Event.freeHandle i => i = x | _ => false)

/-- Total number of occurrences of address `x` across all dependency arrays. -/
def totalOcc : State → Nat → Nat
  | [], _ => 0
  | (_, h) :: rest, x => (depsArr h).count x + totalOcc rest x

/-- Total number of dependency-array entries in the heap. -/
def totalEntries : State → Nat
  | [] => 0
  | (_, h) :: rest => (depsArr h).length + totalEntries rest

/-- The spec's per-handle consistency invariant: the recorded length is `0`
and the sequence is absent, or the length is nonzero and the sequence is
present. -/
def depsInv (h : Handle) : Prop :=
  (h.num_of_dependencies = 0 ∧ h.dependencies = none) ∨
    (h.num_of_dependencies ≠ 0 ∧ ∃ l, h.dependencies = some l)

/-- The invariant holds for every live handle of the heap. -/
def invOk (st : State) : Prop := ∀ id h, getH st id = some h → depsInv h

/-- Diamond-scenario setup: create A (id 1, resource 11, destructor 21),
B (id 2, resource 12, destructor 22), C (id 3, resource 13, destructor 23),
then add_dependency(A, C) and add_dependency(B, C). -/
def diamondBuild : Option State :=
  (createInState true [] 1 11 21).bind fun p =>
  (createInState true p.1 2 12 22).bind fun p =>
  (createInState true p.1 3 13 23).bind fun p =>
  (addDependency true p.1 1 3).bind fun q =>
  (addDependency true q.1 2 3).map fun r => r.1

/-- Soundness facts about one releasing step `f` (instantiated with
`decRef fuel`), stated so that they compose through the dependency loop:
the heap's dependency entries never grow; an absent handle is never touched;
for a present handle, each record deallocation needs a `ref_count` transition
to zero (counted by `zerosIn` along the executed decrements), destructor
invocations need a deallocation, and the surviving record differs from the
original only by the decremented `ref_count`; and each executed decrement of
a handle is paid for either by the root call or by one occurrence of the
handle in a dependency array that is gone from the final heap. -/
def DecSpec (f : State → Nat → Option (State × List Event)) : Prop :=
  ∀ st t st' tr, f st t = some (st', tr) →
    (totalEntries st' ≤ totalEntries st) ∧
    (∀ x, getH st x = none →
        hitsOf tr x = 0 ∧ destructsOf tr x = 0 ∧ freesOf tr x = 0 ∧ getH st' x = none) ∧
    (∀ x h, getH st x = some h →
        freesOf tr x ≤ zerosIn h.ref_count (hitsOf tr x) ∧
        destructsOf tr x ≤ freesOf tr x ∧
        ((getH st' x = none ∧ 1 ≤ freesOf tr x) ∨
          getH st' x = some { h with ref_count := iterDec (hitsOf tr x) h.ref_count })) ∧
    (2 * totalEntries st < sizeTMod →
      ∀ x, hitsOf tr x + totalOcc st' x ≤ (if t = x then 1 else 0) + totalOcc st x)

end HandleC

namespace HandleC

/-! Basic facts about the heap operations. -/

theorem handle_eta (h : Handle) : { h with ref_count := h.ref_count } = h := by
  cases h; rfl

theorem getH_setH_self {st : State} {x : Nat} {h h' : Handle} (hx : getH st x = some h) :
    getH (setH st x h') x = some h' := by
  induction st with
  | nil => simp [getH] at hx
  | cons p rest ih =>
    obtain ⟨k, hk⟩ := p
    by_cases hkx : k = x
    · simp [getH, setH, hkx]
    · simp [getH, setH, hkx] at hx ⊢
      exact ih hx

theorem getH_setH_ne {st : State} {x y : Nat} {h' : Handle} (hxy : y ≠ x) :
    getH (setH st x h') y = getH st y := by
  induction st with
  | nil => simp [setH]
  | cons p rest ih =>
    obtain ⟨k, hk⟩ := p
    by_cases hkx : k = x
    · subst hkx
      simp [getH, setH, Ne.symm hxy]
    · simp [getH, setH, hkx]
      by_cases hky : k = y
      · simp [hky]
      · simp [hky, ih]

theorem setH_absent {st : State} {x : Nat} {h' : Handle} (hx : getH st x = none) :
    setH st x h' = st := by
  induction st with
  | nil => rfl
  | cons p rest ih =>
    obtain ⟨k, hk⟩ := p
    by_cases hkx : k = x
    · simp [getH, hkx] at hx
    · simp [getH, hkx] at hx
      simp [setH, hkx, ih hx]

theorem getH_eraseH_self (st : State) (x : Nat) : getH (eraseH st x) x = none := by
  induction st with
  | nil => rfl
  | cons p rest ih =>
    obtain ⟨k, hk⟩ := p
    by_cases hkx : k = x
    · simp [eraseH, hkx, ih]
    · simp [eraseH, getH, hkx, ih]

theorem getH_eraseH_ne {st : State} {x y : Nat} (hxy : y ≠ x) :
    getH (eraseH st x) y = getH st y := by
  induction st with
  | nil => rfl
  | cons p rest ih =>
    obtain ⟨k, hk⟩ := p
    by_cases hkx : k = x
    · subst hkx
      simp [eraseH, getH, Ne.symm hxy, ih]
    · simp [eraseH, getH, hkx]
      by_cases hky : k = y
      · simp [hky]
      · simp [hky, ih]

theorem totalOcc_setH {st : State} {x : Nat} {h h' : Handle} (hx : getH st x = some h)
    (hdeps : depsArr h' = depsArr h) (y : Nat) :
    totalOcc (setH st x h') y = totalOcc st y := by
  induction st with
  | nil => rfl
  | cons p rest ih =>
    obtain ⟨k, hk⟩ := p
    by_cases hkx : k = x
    · simp [getH, hkx] at hx
      subst hx
      simp [setH, totalOcc, hkx, hdeps]
    · simp [getH, hkx] at hx
      simp [setH, totalOcc, hkx, ih hx]

theorem totalEntries_setH {st : State} {x : Nat} {h h' : Handle} (hx : getH st x = some h)
    (hdeps : depsArr h' = depsArr h) :
    totalEntries (setH st x h') = totalEntries st := by
  induction st with
  | nil => rfl
  | cons p rest ih =>
    obtain ⟨k, hk⟩ := p
    by_cases hkx : k = x
    · simp [getH, hkx] at hx
      subst hx
      simp [setH, totalEntries, hkx, hdeps]
    · simp [getH, hkx] at hx
      simp [setH, totalEntries, hkx, ih hx]

theorem totalEntries_eraseH (st : State) (x : Nat) :
    totalEntries (eraseH st x) ≤ totalEntries st := by
  induction st with
  | nil => exact Nat.le_refl _
  | cons p rest ih =>
    obtain ⟨k, hk⟩ := p
    by_cases hkx : k = x
    · simp [eraseH, hkx, totalEntries]
      omega
    · simp [eraseH, hkx, totalEntries]
      omega

theorem totalOcc_eraseH_mono (st : State) (x y : Nat) :
    totalOcc (eraseH st x) y ≤ totalOcc st y := by
  induction st with
  | nil => exact Nat.le_refl _
  | cons p rest ih =>
    obtain ⟨k, hk⟩ := p
    by_cases hkx : k = x
    · simp [eraseH, hkx, totalOcc]
      omega
    · simp [eraseH, hkx, totalOcc]
      omega

theorem totalOcc_eraseH_le {st : State} {x : Nat} {h : Handle} (hx : getH st x = some h)
    (y : Nat) :
    totalOcc (eraseH st x) y + (depsArr h).count y ≤ totalOcc st y := by
  induction st with
  | nil => simp [getH] at hx
  | cons p rest ih =>
    obtain ⟨k, hk⟩ := p
    by_cases hkx : k = x
    · simp [getH, hkx] at hx
      subst hx
      have := totalOcc_eraseH_mono rest x y
      simp [eraseH, hkx, totalOcc]
      omega
    · simp [getH, hkx] at hx
      have := ih hx
      simp [eraseH, hkx, totalOcc]
      omega

theorem totalOcc_le_totalEntries (st : State) (y : Nat) :
    totalOcc st y ≤ totalEntries st := by
  induction st with
  | nil => exact Nat.le_refl _
  | cons p rest ih =>
    obtain ⟨k, hk⟩ := p
    have := List.count_le_length (l := depsArr hk) (a := y)
    simp [totalOcc, totalEntries]
    omega

theorem count_le_totalOcc {st : State} {x : Nat} {h : Handle} (hx : getH st x = some h)
    (y : Nat) : (depsArr h).count y ≤ totalOcc st y := by
  induction st with
  | nil => simp [getH] at hx
  | cons p rest ih =>
    obtain ⟨k, hk⟩ := p
    by_cases hkx : k = x
    · simp [getH, hkx] at hx
      subst hx
      simp [totalOcc]
    · simp [getH, hkx] at hx
      have := ih hx
      simp [totalOcc]
      omega

end HandleC

namespace HandleC

/-! Arithmetic of the wrapping decrement. -/

theorem sizeTMod_ge_two : 2 ≤ sizeTMod := by
  unfold sizeTMod
  norm_num

theorem decWrap_eq_zero_iff (c : Nat) : decWrap c = 0 ↔ c = 1 := by
  unfold decWrap
  have := sizeTMod_ge_two
  by_cases hc : c = 0 <;> simp [hc] <;> omega

theorem iterDec_add (k1 k2 c : Nat) : iterDec (k1 + k2) c = iterDec k2 (iterDec k1 c) := by
  induction k1 generalizing c with
  | zero => simp [iterDec]
  | succ k ih =>
    have : k + 1 + k2 = (k + k2) + 1 := by omega
    rw [this]
    simp only [iterDec]
    rw [ih (decWrap c)]

theorem zerosIn_add (k1 k2 c : Nat) :
    zerosIn c (k1 + k2) = zerosIn c k1 + zerosIn (iterDec k1 c) k2 := by
  induction k1 generalizing c with
  | zero => simp [zerosIn, iterDec]
  | succ k ih =>
    have : k + 1 + k2 = (k + k2) + 1 := by omega
    rw [this]
    simp only [zerosIn, iterDec]
    rw [ih (decWrap c)]
    omega

theorem zerosIn_eq_zero_of_lt {c k : Nat} (hk : k < c) : zerosIn c k = 0 := by
  induction k generalizing c with
  | zero => rfl
  | succ k ih =>
    have hc1 : c ≠ 1 := by omega
    have hc0 : c ≠ 0 := by omega
    have hdec : decWrap c = c - 1 := by simp [decWrap, hc0]
    simp only [zerosIn, hdec]
    have hne : ¬(c - 1 = 0) := by omega
    simp [hne]
    exact ih (by omega)

theorem zerosIn_zero_eq_zero {k : Nat} (hk : k < sizeTMod) : zerosIn 0 k = 0 := by
  cases k with
  | zero => rfl
  | succ k =>
    have := sizeTMod_ge_two
    have hdec : decWrap 0 = sizeTMod - 1 := by simp [decWrap]
    simp only [zerosIn, hdec]
    have hne : ¬(sizeTMod - 1 = 0) := by omega
    simp [hne]
    exact zerosIn_eq_zero_of_lt (by omega)

theorem zerosIn_one {k : Nat} (hk : k < sizeTMod) : zerosIn 1 (k + 1) = 1 := by
  have hdec : decWrap 1 = 0 := by simp [decWrap]
  simp only [zerosIn, hdec]
  simp [zerosIn_zero_eq_zero hk]

/-! Counting events in traces. -/

theorem hitsOf_append (a b : List Event) (x : Nat) :
    hitsOf (a ++ b) x = hitsOf a x + hitsOf b x := by
  simp [hitsOf, List.countP_append]

theorem destructsOf_append (a b : List Event) (x : Nat) :
    destructsOf (a ++ b) x = destructsOf a x + destructsOf b x := by
  simp [destructsOf, List.countP_append]

theorem freesOf_append (a b : List Event) (x : Nat) :
    freesOf (a ++ b) x = freesOf a x + freesOf b x := by
  simp [freesOf, List.countP_append]

theorem hitsOf_nil (x : Nat) : hitsOf [] x = 0 := rfl

theorem destructsOf_nil (x : Nat) : destructsOf [] x = 0 := rfl

theorem freesOf_nil (x : Nat) : freesOf [] x = 0 := rfl

theorem hitsOf_cons (e : Event) (tr : List Event) (x : Nat) :
    hitsOf (e :: tr) x =
      (match e with | Event.hit i => if i = x then 1 else 0 | _ => 0) + hitsOf tr x := by
  unfold hitsOf
  rw [List.countP_cons]
  cases e with
  | hit i => by_cases hix : i = x <;> simp [hix] <;> omega
  | destruct i d pp => simp
  | freeDeps i => simp
  | freeHandle i => simp

theorem destructsOf_cons (e : Event) (tr : List Event) (x : Nat) :
    destructsOf (e :: tr) x =
      (match e with | Event.destruct i _ _ => if i = x then 1 else 0 | _ => 0) +
        destructsOf tr x := by
  unfold destructsOf
  rw [List.countP_cons]
  cases e with
  | hit i => simp
  | destruct i d pp => by_cases hix : i = x <;> simp [hix] <;> omega
  | freeDeps i => simp
  | freeHandle i => simp

theorem freesOf_cons (e : Event) (tr : List Event) (x : Nat) :
    freesOf (e :: tr) x =
      (match e with | Event.freeHandle i => if i = x then 1 else 0 | _ => 0) + freesOf tr x := by
  unfold freesOf
  rw [List.countP_cons]
  cases e with
  | hit i => simp
  | destruct i d pp => simp
  | freeDeps i => simp
  | freeHandle i => by_cases hix : i = x <;> simp [hix] <;> omega

theorem hitsOf_dtorEvents (id : Nat) (h : Handle) (x : Nat) :
    hitsOf (dtorEvents id h) x = 0 := by
  unfold dtorEvents
  split <;> simp [hitsOf]

theorem freesOf_dtorEvents (id : Nat) (h : Handle) (x : Nat) :
    freesOf (dtorEvents id h) x = 0 := by
  unfold dtorEvents
  split <;> simp [freesOf]

theorem destructsOf_dtorEvents (id : Nat) (h : Handle) (x : Nat) :
    destructsOf (dtorEvents id h) x =
      if h.destructor ≠ 0 ∧ id = x then 1 else 0 := by
  unfold dtorEvents
  split <;> rename_i hd
  · rw [show [Event.destruct id h.destructor h.ptr] =
      Event.destruct id h.destructor h.ptr :: [] from rfl, destructsOf_cons]
    by_cases hix : id = x <;> simp [hix, hd, destructsOf_nil]
  · simp [destructsOf, hd]

end HandleC

namespace HandleC

/-! Claim theorems for the non-recursive operations. -/

/-- C5: for every non-null resource pointer `p` and non-null destructor `d`,
a successful `_rclpy_create_handle` registered at the fresh non-null address
`newId` yields a record with `ref_count = 1`, an absent dependency array of
recorded length `0`, destructor `d`, emits no event (so `d` has not been
invoked), and `_rclpy_handle_get_pointer` returns `p` immediately after
creation. -/
theorem create_success_fields (st : State) (newId p d : Nat) (hp : p ≠ 0) (hd : d ≠ 0)
    (hid : newId ≠ 0) :
    createInState true st newId p d =
      some ((newId, (⟨p, 1, none, 0, d⟩ : Handle)) :: st, []) ∧
    getPointer ((newId, (⟨p, 1, none, 0, d⟩ : Handle)) :: st) newId = some p ∧
    destructsOf [] d = 0 := by
  refine ⟨rfl, ?_, rfl⟩
  simp [getPointer, getH, hid]

theorem create_success_fields_witness :
    createInState true [] 1 11 21 = some ([(1, (⟨11, 1, none, 0, 21⟩ : Handle))], []) ∧
    getPointer [(1, (⟨11, 1, none, 0, 21⟩ : Handle))] 1 = some 11 ∧
    destructsOf [] 21 = 0 :=
  create_success_fields [] 1 11 21 (by decide) (by decide) (by decide)

/-- C6: creation fails (returns the absent value) exactly when the
allocator's `zero_allocate` returns null; on failure nothing is registered
and no destructor can have run, since the caller's heap is untouched. -/
theorem create_fails_iff_alloc_fails (allocOk : Bool) (st : State) (newId p d : Nat) :
    createInState allocOk st newId p d = none ↔ allocOk = false := by
  cases allocOk <;> simp [createInState, createHandle]

/-- C7: `_rclpy_handle_dec_ref` on the NULL handle is a no-op — the heap is
returned unchanged and no event (in particular no destructor invocation) is
emitted — and `_rclpy_handle_get_pointer` on the NULL handle returns NULL. -/
theorem release_null_noop_get_pointer_null (fuel : Nat) (st : State) :
    decRef fuel st 0 = some (st, []) ∧ getPointer st 0 = none := by
  constructor
  · unfold decRef
    simp
  · simp [getPointer]

/-- C2: when the allocator's grow step fails, `_rclpy_handle_add_dependency`
on two live handles returns `RCUTILS_RET_ERROR` and the heap is left exactly
as before the call (so the dependent's dependency sequence and the
dependency's `ref_count` are both unchanged). -/
theorem add_dependency_alloc_failure_rollback {st : State} {a b : Nat} {ha hb : Handle}
    (hA : getH st a = some ha) (hB : getH st b = some hb) :
    addDependency false st a b = some (st, Ret.error) := by
  unfold addDependency
  rw [hA, hB]
  simp

theorem add_dependency_alloc_failure_rollback_witness :
    addDependency false [(1, (⟨11, 1, none, 0, 21⟩ : Handle)),
      (2, (⟨12, 1, none, 0, 22⟩ : Handle))] 1 2 =
      some ([(1, (⟨11, 1, none, 0, 21⟩ : Handle)),
        (2, (⟨12, 1, none, 0, 22⟩ : Handle))], Ret.error) :=
  @add_dependency_alloc_failure_rollback
    [(1, ⟨11, 1, none, 0, 21⟩), (2, ⟨12, 1, none, 0, 22⟩)] 1 2
    ⟨11, 1, none, 0, 21⟩ ⟨12, 1, none, 0, 22⟩ (by decide) (by decide)

/-- C4: a successful `_rclpy_handle_add_dependency` on a pair of distinct
live handles appends the dependency as the new last element of the
dependent's dependency sequence (recorded length grown by one), increments
the dependency's `ref_count` by exactly 1, and changes no other handle; the
companion failure theorem shows neither effect happens on allocation
failure.  The hypothesis `hb.ref_count + 1 < sizeTMod` states the count is
in `size_t` range, which every reachable heap satisfies. -/
theorem add_dependency_success_effects {st : State} {a b : Nat} {ha hb : Handle}
    (hA : getH st a = some ha) (hB : getH st b = some hb) (hab : a ≠ b)
    (hcnt : hb.ref_count + 1 < sizeTMod) :
    ∃ st', addDependency true st a b = some (st', Ret.ok) ∧
      getH st' a = some { ha with dependencies := some (depsArr ha ++ [b]),
                                  num_of_dependencies := ha.num_of_dependencies + 1 } ∧
      getH st' b = some { hb with ref_count := hb.ref_count + 1 } ∧
      (∀ y, y ≠ a → y ≠ b → getH st' y = getH st y) := by
  have hinc : incWrap hb.ref_count = hb.ref_count + 1 := Nat.mod_eq_of_lt hcnt
  have hst1b : getH (setH st a { ha with dependencies := some (depsArr ha ++ [b]), num_of_dependencies := ha.num_of_dependencies + 1 }) b = some hb := by
    rw [getH_setH_ne (Ne.symm hab)]
    exact hB
  refine ⟨setH (setH st a { ha with dependencies := some (depsArr ha ++ [b]), num_of_dependencies := ha.num_of_dependencies + 1 }) b { hb with ref_count := hb.ref_count + 1 }, ?_, ?_, ?_, ?_⟩
  · unfold addDependency
    rw [hA, hB]
    simp only [if_true]
    rw [hst1b]
    simp only [hinc]
  · rw [getH_setH_ne hab]
    exact getH_setH_self hA
  · exact getH_setH_self hst1b
  · intro y hya hyb
    rw [getH_setH_ne hyb, getH_setH_ne hya]

theorem add_dependency_success_effects_witness :
    ∃ st', addDependency true [(1, (⟨11, 1, none, 0, 21⟩ : Handle)),
        (2, (⟨12, 1, none, 0, 22⟩ : Handle))] 1 2 = some (st', Ret.ok) ∧
      getH st' 1 = some (⟨11, 1, some [2], 1, 21⟩ : Handle) ∧
      getH st' 2 = some (⟨12, 2, none, 0, 22⟩ : Handle) ∧
      (∀ y, y ≠ 1 → y ≠ 2 → getH st' y =
        getH [(1, (⟨11, 1, none, 0, 21⟩ : Handle)), (2, (⟨12, 1, none, 0, 22⟩ : Handle))] y) :=
  @add_dependency_success_effects
    [(1, ⟨11, 1, none, 0, 21⟩), (2, ⟨12, 1, none, 0, 22⟩)] 1 2
    ⟨11, 1, none, 0, 21⟩ ⟨12, 1, none, 0, 22⟩
    (by decide) (by decide) (by decide) (by norm_num [sizeTMod])

/-- C10: `_rclpy_handle_add_dependency` accepts a self-edge: on a live
handle `a` with `add_dependency(a, a)` the call succeeds, appends `a` to its
own dependency sequence and increments its own `ref_count` by 1, leaving a
length-one cycle in place (no check rejects it). -/
theorem add_dependency_self_edge {st : State} {a : Nat} {ha : Handle}
    (hA : getH st a = some ha) (hcnt : ha.ref_count + 1 < sizeTMod) :
    ∃ st', addDependency true st a a = some (st', Ret.ok) ∧
      getH st' a = some { ha with ref_count := ha.ref_count + 1,
                                  dependencies := some (depsArr ha ++ [a]),
                                  num_of_dependencies := ha.num_of_dependencies + 1 } ∧
      a ∈ depsArr { ha with ref_count := ha.ref_count + 1,
                            dependencies := some (depsArr ha ++ [a]),
                            num_of_dependencies := ha.num_of_dependencies + 1 } ∧
      (∀ y, y ≠ a → getH st' y = getH st y) := by
  have hinc : incWrap ha.ref_count = ha.ref_count + 1 := Nat.mod_eq_of_lt hcnt
  have hst1a : getH (setH st a { ha with dependencies := some (depsArr ha ++ [a]), num_of_dependencies := ha.num_of_dependencies + 1 }) a = some { ha with dependencies := some (depsArr ha ++ [a]), num_of_dependencies := ha.num_of_dependencies + 1 } :=
    getH_setH_self hA
  refine ⟨setH (setH st a { ha with dependencies := some (depsArr ha ++ [a]), num_of_dependencies := ha.num_of_dependencies + 1 }) a { ha with ref_count := ha.ref_count + 1, dependencies := some (depsArr ha ++ [a]), num_of_dependencies := ha.num_of_dependencies + 1 }, ?_, ?_, ?_, ?_⟩
  · unfold addDependency
    rw [hA]
    simp only [if_true]
    rw [hst1a]
    simp only [hinc]
  · exact getH_setH_self hst1a
  · simp [depsArr]
  · intro y hya
    rw [getH_setH_ne hya, getH_setH_ne hya]

theorem add_dependency_self_edge_witness :
    ∃ st', addDependency true [(5, (⟨15, 1, none, 0, 25⟩ : Handle))] 5 5 =
        some (st', Ret.ok) ∧
      getH st' 5 = some (⟨15, 2, some [5], 1, 25⟩ : Handle) ∧
      5 ∈ depsArr (⟨15, 2, some [5], 1, 25⟩ : Handle) ∧
      (∀ y, y ≠ 5 → getH st' y = getH [(5, (⟨15, 1, none, 0, 25⟩ : Handle))] y) :=
  @add_dependency_self_edge [(5, ⟨15, 1, none, 0, 25⟩)] 5 ⟨15, 1, none, 0, 25⟩
    (by decide) (by norm_num [sizeTMod])

/-- C9: on a live handle whose `ref_count` is at least 2 (and whose record
passes the dependency-consistency assertion), `_rclpy_handle_dec_ref`
decrements `ref_count` by exactly 1 and does nothing else: the only event is
the decrement itself (no destructor invocation, no deallocation), the
resource pointer and dependency sequence of the handle are untouched, and
every other handle is unchanged. -/
theorem dec_ref_nonzero_only_decrements {st : State} {id fuel : Nat} {h : Handle}
    (hid : id ≠ 0) (hH : getH st id = some h) (hok : depsOk h = true)
    (hc : 2 ≤ h.ref_count) :
    decRef (fuel + 1) st id =
      some (setH st id { h with ref_count := h.ref_count - 1 }, [Event.hit id]) ∧
    getH (setH st id { h with ref_count := h.ref_count - 1 }) id =
      some { h with ref_count := h.ref_count - 1 } ∧
    (∀ y, y ≠ id → getH (setH st id { h with ref_count := h.ref_count - 1 }) y = getH st y) ∧
    (∀ y, destructsOf [Event.hit id] y = 0 ∧ freesOf [Event.hit id] y = 0) := by
  have hne : h.ref_count ≠ 0 := by omega
  have hdec : decWrap h.ref_count = h.ref_count - 1 := by simp [decWrap, hne]
  refine ⟨?_, getH_setH_self hH, fun y hy => getH_setH_ne hy, fun y => ⟨rfl, rfl⟩⟩
  unfold decRef
  rw [if_neg hid, hH]
  simp only [hok, if_true, hdec]
  rw [if_neg (show ¬(h.ref_count - 1 = 0) by omega)]

theorem dec_ref_nonzero_only_decrements_witness :
    decRef (3 + 1) [(7, (⟨17, 2, none, 0, 27⟩ : Handle))] 7 =
      some (setH [(7, (⟨17, 2, none, 0, 27⟩ : Handle))] 7
        { (⟨17, 2, none, 0, 27⟩ : Handle) with ref_count := (2 : Nat) - 1 },
        [Event.hit 7]) ∧
    getH (setH [(7, (⟨17, 2, none, 0, 27⟩ : Handle))] 7
        { (⟨17, 2, none, 0, 27⟩ : Handle) with ref_count := (2 : Nat) - 1 }) 7 =
      some { (⟨17, 2, none, 0, 27⟩ : Handle) with ref_count := (2 : Nat) - 1 } ∧
    (∀ y, y ≠ 7 → getH (setH [(7, (⟨17, 2, none, 0, 27⟩ : Handle))] 7
        { (⟨17, 2, none, 0, 27⟩ : Handle) with ref_count := (2 : Nat) - 1 }) y =
      getH [(7, (⟨17, 2, none, 0, 27⟩ : Handle))] y) ∧
    (∀ y, destructsOf [Event.hit 7] y = 0 ∧ freesOf [Event.hit 7] y = 0) :=
  @dec_ref_nonzero_only_decrements [(7, ⟨17, 2, none, 0, 27⟩)] 7 3 ⟨17, 2, none, 0, 27⟩
    (by decide) (by decide) (by decide) (by decide)

end HandleC

namespace HandleC

/-! Unfolding equations for the releasing recursion, and the combined
soundness lemma used to analyze it. -/

theorem decRef_zero_eq {st : State} {t : Nat} (ht : t ≠ 0) : decRef 0 st t = none := by
  unfold decRef
  rw [if_neg ht]

theorem decRef_succ {fuel : Nat} {st : State} {t : Nat} (ht : t ≠ 0) :
    decRef (fuel + 1) st t =
      match getH st t with
      | none => none
      | some h =>
        if depsOk h then
          if decWrap h.ref_count = 0 then
            match runList (decRef fuel)
              (setH st t { h with ref_count := decWrap h.ref_count }) (depsArr h) with
            | none => none
            | some (st2, trDeps) =>
              some (eraseH st2 t,
                Event.hit t :: dtorEvents t h ++ trDeps ++
                  [Event.freeDeps t, Event.freeHandle t])
          else some (setH st t { h with ref_count := decWrap h.ref_count }, [Event.hit t])
        else none := by
  unfold decRef
  rw [if_neg ht]

theorem counts_decomp (t : Nat) (h : Handle) (trL : List Event) (x : Nat) :
    hitsOf (Event.hit t :: dtorEvents t h ++ trL ++ [Event.freeDeps t, Event.freeHandle t]) x =
      (if t = x then 1 else 0) + hitsOf trL x ∧
    destructsOf (Event.hit t :: dtorEvents t h ++ trL ++
        [Event.freeDeps t, Event.freeHandle t]) x =
      (if h.destructor ≠ 0 ∧ t = x then 1 else 0) + destructsOf trL x ∧
    freesOf (Event.hit t :: dtorEvents t h ++ trL ++ [Event.freeDeps t, Event.freeHandle t]) x =
      (if t = x then 1 else 0) + freesOf trL x := by
  refine ⟨?_, ?_, ?_⟩
  · simp only [hitsOf_append, hitsOf_cons, hitsOf_dtorEvents, hitsOf_nil]
    by_cases htx : t = x
    all_goals simp [htx]
    all_goals omega
  · simp only [destructsOf_append, destructsOf_cons, destructsOf_dtorEvents, destructsOf_nil]
    by_cases htx : t = x
    all_goals by_cases hd : h.destructor ≠ 0
    all_goals simp [htx, hd]
    all_goals omega
  · simp only [freesOf_append, freesOf_cons, freesOf_dtorEvents, freesOf_nil]
    by_cases htx : t = x
    all_goals simp [htx]
    all_goals omega

theorem spec_conj_noop (st : State) (g : Nat → Nat) :
    (totalEntries st ≤ totalEntries st) ∧
    (∀ x, getH st x = none →
        hitsOf [] x = 0 ∧ destructsOf [] x = 0 ∧ freesOf [] x = 0 ∧ getH st x = none) ∧
    (∀ x h, getH st x = some h →
        freesOf [] x ≤ zerosIn h.ref_count (hitsOf [] x) ∧
        destructsOf [] x ≤ freesOf [] x ∧
        ((getH st x = none ∧ 1 ≤ freesOf [] x) ∨
          getH st x = some { h with ref_count := iterDec (hitsOf [] x) h.ref_count })) ∧
    (2 * totalEntries st < sizeTMod →
      ∀ x, hitsOf [] x + totalOcc st x ≤ g x + totalOcc st x) := by
  refine ⟨Nat.le_refl _, fun x hx => ⟨rfl, rfl, rfl, hx⟩, fun x h hx => ?_, fun _ x => ?_⟩
  · exact ⟨Nat.le_refl 0, Nat.le_refl 0, Or.inr hx⟩
  · have : hitsOf [] x = 0 := rfl
    omega

end HandleC

namespace HandleC

theorem runList_cons_inv {f : State → Nat → Option (State × List Event)} {st : State}
    {d : Nat} {rest : List Nat} {st' : State} {tr : List Event}
    (hrun : runList f st (d :: rest) = some (st', tr)) :
    ∃ st2 tr1 tr2, f st d = some (st2, tr1) ∧ runList f st2 rest = some (st', tr2) ∧
      tr = tr1 ++ tr2 := by
  rw [runList] at hrun
  cases hfd : f st d with
  | none =>
    rw [hfd] at hrun
    cases hrun
  | some p =>
    obtain ⟨st2, tr1⟩ := p
    rw [hfd] at hrun
    simp only [] at hrun
    cases hrl : runList f st2 rest with
    | none =>
      rw [hrl] at hrun
      cases hrun
    | some q =>
      obtain ⟨st3, tr2⟩ := q
      rw [hrl] at hrun
      simp only [Option.some.injEq, Prod.mk.injEq] at hrun
      obtain ⟨rfl, rfl⟩ := hrun
      exact ⟨st2, tr1, tr2, rfl, hrl, rfl⟩

theorem runList_spec {f : State → Nat → Option (State × List Event)} (hf : DecSpec f) :
    ∀ (l : List Nat) (st st' : State) (tr : List Event),
      runList f st l = some (st', tr) →
      (totalEntries st' ≤ totalEntries st) ∧
      (∀ x, getH st x = none →
          hitsOf tr x = 0 ∧ destructsOf tr x = 0 ∧ freesOf tr x = 0 ∧ getH st' x = none) ∧
      (∀ x h, getH st x = some h →
          freesOf tr x ≤ zerosIn h.ref_count (hitsOf tr x) ∧
          destructsOf tr x ≤ freesOf tr x ∧
          ((getH st' x = none ∧ 1 ≤ freesOf tr x) ∨
            getH st' x = some { h with ref_count := iterDec (hitsOf tr x) h.ref_count })) ∧
      (2 * totalEntries st < sizeTMod →
        ∀ x, hitsOf tr x + totalOcc st' x ≤ l.count x + totalOcc st x) := by
  intro l
  induction l with
  | nil =>
    intro st st' tr hrun
    rw [runList] at hrun
    simp only [Option.some.injEq, Prod.mk.injEq] at hrun
    obtain ⟨rfl, rfl⟩ := hrun
    exact spec_conj_noop st (fun x => ([] : List Nat).count x)
  | cons d rest ih =>
    intro st st' tr hrun
    obtain ⟨st2, tr1, tr2, hfd, hrl, rfl⟩ := runList_cons_inv hrun
    obtain ⟨hA1, hC1, hB1, hD1⟩ := hf st d st2 tr1 hfd
    obtain ⟨hA2, hC2, hB2, hD2⟩ := ih st2 st' tr2 hrl
    refine ⟨Nat.le_trans hA2 hA1, ?_, ?_, ?_⟩
    · intro x hx
      obtain ⟨h1, d1, f1, hn2⟩ := hC1 x hx
      obtain ⟨h2, d2, f2, hn3⟩ := hC2 x hn2
      refine ⟨?_, ?_, ?_, hn3⟩
      · rw [hitsOf_append, h1, h2]
      · rw [destructsOf_append, d1, d2]
      · rw [freesOf_append, f1, f2]
    · intro x h hx
      obtain ⟨fle1, dle1, hdis1⟩ := hB1 x h hx
      cases hdis1 with
      | inl herase =>
        obtain ⟨hn2, hfge⟩ := herase
        obtain ⟨h2, d2, f2, hn3⟩ := hC2 x hn2
        refine ⟨?_, ?_, Or.inl ⟨hn3, ?_⟩⟩
        · rw [freesOf_append, hitsOf_append, f2, h2, Nat.add_zero, Nat.add_zero]
          exact fle1
        · rw [destructsOf_append, freesOf_append, d2, f2, Nat.add_zero, Nat.add_zero]
          exact dle1
        · rw [freesOf_append, f2]
          omega
      | inr hsome =>
        obtain ⟨fle2, dle2, hdis2⟩ := hB2 x _ hsome
        have fle2' : freesOf tr2 x ≤
            zerosIn (iterDec (hitsOf tr1 x) h.ref_count) (hitsOf tr2 x) := fle2
        refine ⟨?_, ?_, ?_⟩
        · rw [freesOf_append, hitsOf_append, zerosIn_add]
          omega
        · rw [destructsOf_append, freesOf_append]
          omega
        · cases hdis2 with
          | inl he =>
            refine Or.inl ⟨he.1, ?_⟩
            rw [freesOf_append]
            omega
          | inr hs =>
            refine Or.inr ?_
            rw [hitsOf_append, iterDec_add]
            exact hs
    · intro hq x
      have hq2 : 2 * totalEntries st2 < sizeTMod := by omega
      have hd1 := hD1 hq x
      have hd2 := hD2 hq2 x
      rw [hitsOf_append]
      by_cases hdx : d = x
      · subst hdx
        simp only [List.count_cons_self]
        simp at hd1
        omega
      · rw [List.count_cons_of_ne (fun he => hdx he.symm)]
        rw [if_neg hdx] at hd1
        omega

end HandleC

namespace HandleC

theorem hitsOf_single (t x : Nat) : hitsOf [Event.hit t] x = if t = x then 1 else 0 := by
  rw [show [Event.hit t] = Event.hit t :: [] from rfl, hitsOf_cons, hitsOf_nil]
  simp

theorem destructsOf_single_hit (t x : Nat) : destructsOf [Event.hit t] x = 0 := by
  rw [show [Event.hit t] = Event.hit t :: [] from rfl, destructsOf_cons, destructsOf_nil]

theorem freesOf_single_hit (t x : Nat) : freesOf [Event.hit t] x = 0 := by
  rw [show [Event.hit t] = Event.hit t :: [] from rfl, freesOf_cons, freesOf_nil]

theorem decRef_spec : ∀ fuel, DecSpec (decRef fuel) := by
  intro fuel
  induction fuel with
  | zero =>
    intro st t st' tr hrun
    by_cases ht : t = 0
    · subst ht
      have h0 : decRef 0 st 0 = some (st, []) := by
        unfold decRef
        simp
      rw [h0] at hrun
      simp only [Option.some.injEq, Prod.mk.injEq] at hrun
      obtain ⟨rfl, rfl⟩ := hrun
      exact spec_conj_noop st _
    · rw [decRef_zero_eq ht] at hrun
      cases hrun
  | succ fuel ih =>
    intro st t st' tr hrun
    by_cases ht : t = 0
    · subst ht
      have h0 : decRef (fuel + 1) st 0 = some (st, []) := by
        unfold decRef
        simp
      rw [h0] at hrun
      simp only [Option.some.injEq, Prod.mk.injEq] at hrun
      obtain ⟨rfl, rfl⟩ := hrun
      exact spec_conj_noop st _
    · rw [decRef_succ ht] at hrun
      cases hT : getH st t with
      | none =>
        rw [hT] at hrun
        cases hrun
      | some h =>
        rw [hT] at hrun
        simp only [] at hrun
        have hTE1 : totalEntries (setH st t { h with ref_count := decWrap h.ref_count }) =
            totalEntries st :=
          totalEntries_setH hT
            (show depsArr { h with ref_count := decWrap h.ref_count } = depsArr h from rfl)
        have hTO1 : ∀ y, totalOcc (setH st t { h with ref_count := decWrap h.ref_count }) y =
            totalOcc st y := fun y =>
          totalOcc_setH hT
            (show depsArr { h with ref_count := decWrap h.ref_count } = depsArr h from rfl) y
        by_cases hok : depsOk h = true
        · rw [if_pos hok] at hrun
          by_cases hc0 : decWrap h.ref_count = 0
          · rw [if_pos hc0] at hrun
            cases hrl : runList (decRef fuel)
                (setH st t { h with ref_count := decWrap h.ref_count }) (depsArr h) with
            | none =>
              rw [hrl] at hrun
              cases hrun
            | some q =>
              obtain ⟨st2, trDeps⟩ := q
              rw [hrl] at hrun
              simp only [Option.some.injEq, Prod.mk.injEq] at hrun
              obtain ⟨rfl, rfl⟩ := hrun
              obtain ⟨hA2, hC2, hB2, hD2⟩ := runList_spec ih (depsArr h) _ _ _ hrl
              have hrec1 : getH (setH st t { h with ref_count := decWrap h.ref_count }) t =
                  some { h with ref_count := decWrap h.ref_count } := getH_setH_self hT
              refine ⟨?_, ?_, ?_, ?_⟩
              · exact Nat.le_trans (totalEntries_eraseH st2 t)
                  (Nat.le_trans hA2 (Nat.le_of_eq hTE1))
              · intro x hx
                have hxt : x ≠ t := by
                  intro he
                  rw [he, hT] at hx
                  cases hx
                obtain ⟨cH, cD, cF⟩ := counts_decomp t h trDeps x
                have hst1x : getH (setH st t { h with ref_count := decWrap h.ref_count }) x =
                    none := by
                  rw [getH_setH_ne hxt]
                  exact hx
                obtain ⟨h2, d2, f2, hn2⟩ := hC2 x hst1x
                have htx : ¬t = x := fun he => hxt he.symm
                refine ⟨?_, ?_, ?_, ?_⟩
                · rw [cH, h2, if_neg htx]
                · rw [cD, d2]
                  simp [htx]
                · rw [cF, f2, if_neg htx]
                · rw [getH_eraseH_ne hxt]
                  exact hn2
              · intro x h0 hx0
                obtain ⟨cH, cD, cF⟩ := counts_decomp t h trDeps x
                by_cases hxt : x = t
                · subst hxt
                  have hh0 : h0 = h := by
                    rw [hT] at hx0
                    cases hx0
                    rfl
                  subst hh0
                  obtain ⟨fleL, dleL, hdisL⟩ := hB2 x _ hrec1
                  have fleL' : freesOf trDeps x ≤
                      zerosIn (decWrap h0.ref_count) (hitsOf trDeps x) := fleL
                  rw [hc0] at fleL'
                  have hz : zerosIn h0.ref_count (hitsOf trDeps x + 1) =
                      1 + zerosIn 0 (hitsOf trDeps x) := by
                    simp [zerosIn, hc0]
                  refine ⟨?_, ?_, Or.inl ⟨getH_eraseH_self st2 x, ?_⟩⟩
                  · rw [cF, cH, if_pos rfl, Nat.add_comm 1 (hitsOf trDeps x)]
                    omega
                  · rw [cD, cF, if_pos rfl]
                    by_cases hd : h0.destructor ≠ 0
                    all_goals simp [hd]
                    all_goals omega
                  · rw [cF, if_pos rfl]
                    omega
                · have htx : ¬t = x := fun he => hxt he.symm
                  have hst1x : getH (setH st t { h with ref_count := decWrap h.ref_count }) x =
                      some h0 := by
                    rw [getH_setH_ne hxt]
                    exact hx0
                  obtain ⟨fleL, dleL, hdisL⟩ := hB2 x h0 hst1x
                  refine ⟨?_, ?_, ?_⟩
                  · rw [cF, cH, if_neg htx, Nat.zero_add, Nat.zero_add]
                    exact fleL
                  · rw [cD, cF, if_neg htx, Nat.zero_add]
                    simp [htx]
                    exact dleL
                  · cases hdisL with
                    | inl he =>
                      refine Or.inl ⟨?_, ?_⟩
                      · rw [getH_eraseH_ne hxt]
                        exact he.1
                      · rw [cF, if_neg htx, Nat.zero_add]
                        exact he.2
                    | inr hs =>
                      refine Or.inr ?_
                      rw [getH_eraseH_ne hxt, cH, if_neg htx, Nat.zero_add]
                      exact hs
              · intro hq x
                have hq1 : 2 * totalEntries
                    (setH st t { h with ref_count := decWrap h.ref_count }) < sizeTMod := by
                  rw [hTE1]
                  exact hq
                have hd2 := hD2 hq1 x
                have hd2t := hD2 hq1 t
                have hcle : (depsArr h).count t ≤
                    totalOcc (setH st t { h with ref_count := decWrap h.ref_count }) t :=
                  count_le_totalOcc hrec1 t
                have htot1t : totalOcc (setH st t { h with ref_count := decWrap h.ref_count }) t ≤
                    totalEntries (setH st t { h with ref_count := decWrap h.ref_count }) :=
                  totalOcc_le_totalEntries _ t
                have hhits_lt : hitsOf trDeps t < sizeTMod := by omega
                obtain ⟨fleT, dleT, hdisT⟩ := hB2 t _ hrec1
                have fleT' : freesOf trDeps t ≤
                    zerosIn (decWrap h.ref_count) (hitsOf trDeps t) := fleT
                rw [hc0, zerosIn_zero_eq_zero hhits_lt] at fleT'
                have hsurv : getH st2 t = some { { h with ref_count := decWrap h.ref_count } with
                    ref_count := iterDec (hitsOf trDeps t)
                      ({ h with ref_count := decWrap h.ref_count }).ref_count } := by
                  cases hdisT with
                  | inl he => omega
                  | inr hs => exact hs
                have her : totalOcc (eraseH st2 t) x + (depsArr h).count x ≤ totalOcc st2 x :=
                  totalOcc_eraseH_le hsurv x
                obtain ⟨cH, cD, cF⟩ := counts_decomp t h trDeps x
                rw [cH]
                have hto1x := hTO1 x
                by_cases htx : t = x
                · rw [if_pos htx]
                  rw [htx] at hd2t hcle her ⊢
                  omega
                · rw [if_neg htx]
                  omega
          · rw [if_neg hc0] at hrun
            simp only [Option.some.injEq, Prod.mk.injEq] at hrun
            obtain ⟨rfl, rfl⟩ := hrun
            refine ⟨Nat.le_of_eq hTE1, ?_, ?_, ?_⟩
            · intro x hx
              have hxt : x ≠ t := by
                intro he
                rw [he, hT] at hx
                cases hx
              have htx : ¬t = x := fun he => hxt he.symm
              refine ⟨?_, destructsOf_single_hit t x, freesOf_single_hit t x, ?_⟩
              · rw [hitsOf_single, if_neg htx]
              · rw [getH_setH_ne hxt]
                exact hx
            · intro x h0 hx0
              by_cases hxt : x = t
              · subst hxt
                have hh0 : h0 = h := by
                  rw [hT] at hx0
                  cases hx0
                  rfl
                subst hh0
                refine ⟨?_, ?_, Or.inr ?_⟩
                · rw [freesOf_single_hit]
                  exact Nat.zero_le _
                · rw [destructsOf_single_hit, freesOf_single_hit]
                · rw [hitsOf_single, if_pos rfl]
                  exact getH_setH_self hx0
              · have htx : ¬t = x := fun he => hxt he.symm
                refine ⟨?_, ?_, Or.inr ?_⟩
                · rw [freesOf_single_hit]
                  exact Nat.zero_le _
                · rw [destructsOf_single_hit, freesOf_single_hit]
                · rw [hitsOf_single, if_neg htx, getH_setH_ne hxt]
                  exact hx0
            · intro hq x
              rw [hitsOf_single, hTO1 x]
        · rw [if_neg hok] at hrun
          cases hrun

end HandleC

namespace HandleC

theorem inv_setH {st : State} {x : Nat} {h' : Handle} (hinv : invOk st) (hd : depsInv h') :
    invOk (setH st x h') := by
  intro id hh hget
  by_cases hix : id = x
  · subst hix
    cases hpres : getH st id with
    | none =>
      rw [setH_absent hpres] at hget
      exact hinv id hh hget
    | some hcur =>
      rw [getH_setH_self hpres] at hget
      cases hget
      exact hd
  · rw [getH_setH_ne hix] at hget
    exact hinv id hh hget

/-- C8: the consistency invariant between the dependency sequence and the
recorded length — length `0` with an absent sequence, or nonzero length with
a present sequence — holds for every handle the heap after creation and is
preserved by `_rclpy_handle_add_dependency` (successful or failed) and by
`_rclpy_handle_dec_ref`. -/
theorem operations_preserve_deps_invariant :
    (∀ (ok : Bool) (st : State) (n p d : Nat) (st' : State) (tr : List Event),
        invOk st → createInState ok st n p d = some (st', tr) → invOk st') ∧
    (∀ (ok : Bool) (st : State) (a b : Nat) (st' : State) (r : Ret),
        invOk st → addDependency ok st a b = some (st', r) → invOk st') ∧
    (∀ (fuel : Nat) (st : State) (t : Nat) (st' : State) (tr : List Event),
        invOk st → decRef fuel st t = some (st', tr) → invOk st') := by
  refine ⟨?_, ?_, ?_⟩
  · intro ok st n p d st' tr hinv hc
    cases ok with
    | false => simp [createInState, createHandle] at hc
    | true =>
      have hc2 : createInState true st n p d = some ((n, ⟨p, 1, none, 0, d⟩) :: st, []) := rfl
      rw [hc2] at hc
      simp only [Option.some.injEq, Prod.mk.injEq] at hc
      obtain ⟨rfl, rfl⟩ := hc
      intro id hh hget
      unfold getH at hget
      by_cases hn : n = id
      · rw [if_pos hn] at hget
        cases hget
        exact Or.inl ⟨rfl, rfl⟩
      · rw [if_neg hn] at hget
        exact hinv id hh hget
  · intro ok st a b st' r hinv hadd
    unfold addDependency at hadd
    cases hA : getH st a with
    | none =>
      rw [hA] at hadd
      cases hB : getH st b with
      | none =>
        rw [hB] at hadd
        simp only [] at hadd
        cases hadd
      | some hbv =>
        rw [hB] at hadd
        simp only [] at hadd
        cases hadd
    | some hav =>
      rw [hA] at hadd
      cases hB : getH st b with
      | none =>
        rw [hB] at hadd
        simp only [] at hadd
        cases hadd
      | some hbv =>
        rw [hB] at hadd
        simp only [] at hadd
        cases ok with
        | false =>
          simp only [Bool.false_eq_true, if_false, Option.some.injEq, Prod.mk.injEq] at hadd
          obtain ⟨rfl, rfl⟩ := hadd
          exact hinv
        | true =>
          simp only [if_true] at hadd
          have hinv1 : invOk (setH st a { hav with
              dependencies := some (depsArr hav ++ [b]),
              num_of_dependencies := hav.num_of_dependencies + 1 }) :=
            inv_setH hinv (Or.inr ⟨Nat.succ_ne_zero _, _, rfl⟩)
          cases hB1 : getH (setH st a { hav with
              dependencies := some (depsArr hav ++ [b]),
              num_of_dependencies := hav.num_of_dependencies + 1 }) b with
          | none =>
            rw [hB1] at hadd
            cases hadd
          | some hb1 =>
            rw [hB1] at hadd
            simp only [Option.some.injEq, Prod.mk.injEq] at hadd
            obtain ⟨rfl, rfl⟩ := hadd
            exact inv_setH hinv1 (hinv1 b hb1 hB1)
  · intro fuel st t st' tr hinv hd
    obtain ⟨hA, hC, hB, hD⟩ := decRef_spec fuel st t st' tr hd
    intro id hh hget
    cases hpres : getH st id with
    | none =>
      obtain ⟨_, _, _, hnone⟩ := hC id hpres
      rw [hnone] at hget
      cases hget
    | some h =>
      obtain ⟨_, _, hdis⟩ := hB id h hpres
      cases hdis with
      | inl he =>
        rw [he.1] at hget
        cases hget
      | inr hs =>
        rw [hs] at hget
        cases hget
        exact hinv id h hpres

theorem operations_preserve_deps_invariant_witness :
    invOk [(1, (⟨11, 1, none, 0, 21⟩ : Handle))] :=
  operations_preserve_deps_invariant.1 true [] 1 11 21
    [(1, (⟨11, 1, none, 0, 21⟩ : Handle))] []
    (fun id hh hget => by cases hget) rfl

end HandleC

namespace HandleC

/-- C1: when a release drives a live handle's `ref_count` from 1 to 0, the
run first decrements the count, then invokes the handle's own destructor —
exactly once in the whole run, and strictly before any dependency is
released — then releases each entry of the dependency sequence in order
(the `decRefList` run on `depsArr h`), and only then deallocates the
dependency storage and the handle record (the two final events), removing
the record from the heap.  The hypothesis `2 * totalEntries st < sizeTMod`
says the heap's dependency arrays hold fewer than `2^63` entries, which any
heap that fits in memory satisfies; `h.destructor ≠ 0` is the creation
invariant that the destructor pointer is non-NULL. -/
theorem dec_ref_zero_destructor_order {fuel : Nat} {st : State} {id : Nat} {h : Handle}
    (hid : id ≠ 0) (hH : getH st id = some h) (hrc : h.ref_count = 1)
    (hdtor : h.destructor ≠ 0) (hok : depsOk h = true)
    (hTE : 2 * totalEntries st < sizeTMod)
    {st' : State} {tr : List Event}
    (hrun : decRef (fuel + 1) st id = some (st', tr)) :
    ∃ st2 trDeps,
      decRefList fuel (setH st id { h with ref_count := 0 }) (depsArr h) =
        some (st2, trDeps) ∧
      tr = Event.hit id :: Event.destruct id h.destructor h.ptr :: trDeps ++
        [Event.freeDeps id, Event.freeHandle id] ∧
      st' = eraseH st2 id ∧
      destructsOf tr id = 1 := by
  have hrun0 := hrun
  have hdw : decWrap h.ref_count = 0 := by
    rw [hrc]
    decide
  rw [decRef_succ hid, hH] at hrun
  simp only [] at hrun
  rw [if_pos hok, if_pos hdw] at hrun
  cases hrl : runList (decRef fuel)
      (setH st id { h with ref_count := decWrap h.ref_count }) (depsArr h) with
  | none =>
    rw [hrl] at hrun
    cases hrun
  | some q =>
    obtain ⟨st2, trDeps⟩ := q
    rw [hrl] at hrun
    simp only [Option.some.injEq, Prod.mk.injEq] at hrun
    obtain ⟨rfl, rfl⟩ := hrun
    obtain ⟨hA, hC, hB, hD⟩ := decRef_spec (fuel + 1) st id _ _ hrun0
    obtain ⟨fle, dle, hdis⟩ := hB id h hH
    have hd := hD hTE id
    obtain ⟨cH, cD, cF⟩ := counts_decomp id h trDeps id
    have hto : totalOcc st id ≤ totalEntries st := totalOcc_le_totalEntries st id
    have hii : (if id = id then (1 : Nat) else 0) = 1 := if_pos rfl
    have hdd : (if h.destructor ≠ 0 ∧ id = id then (1 : Nat) else 0) = 1 := if_pos ⟨hdtor, rfl⟩
    rw [cH, hii] at hd
    have h1 : hitsOf trDeps id < sizeTMod := by omega
    rw [cF, cH, hii] at fle
    rw [Nat.add_comm 1 (hitsOf trDeps id), hrc, zerosIn_one h1] at fle
    rw [cD, hdd, cF, hii] at dle
    refine ⟨st2, trDeps, ?_, ?_, rfl, ?_⟩
    · have hrec : ({ h with ref_count := 0 } : Handle) =
          { h with ref_count := decWrap h.ref_count } := by
        rw [hdw]
      rw [decRefList, hrec]
      exact hrl
    · simp [dtorEvents, hdtor]
    · rw [cD, hdd]
      omega

theorem dec_ref_zero_destructor_order_witness :
    (1 : Nat) ≠ 0 ∧
    getH [(1, (⟨11, 1, some [2], 1, 21⟩ : Handle)), (2, (⟨12, 1, none, 0, 22⟩ : Handle))] 1 =
      some ⟨11, 1, some [2], 1, 21⟩ ∧
    (⟨11, 1, some [2], 1, 21⟩ : Handle).ref_count = 1 ∧
    (⟨11, 1, some [2], 1, 21⟩ : Handle).destructor ≠ 0 ∧
    depsOk ⟨11, 1, some [2], 1, 21⟩ = true ∧
    2 * totalEntries [(1, (⟨11, 1, some [2], 1, 21⟩ : Handle)),
      (2, (⟨12, 1, none, 0, 22⟩ : Handle))] < sizeTMod ∧
    decRef (5 + 1) [(1, (⟨11, 1, some [2], 1, 21⟩ : Handle)),
        (2, (⟨12, 1, none, 0, 22⟩ : Handle))] 1 =
      some ([], [Event.hit 1, Event.destruct 1 21 11, Event.hit 2, Event.destruct 2 22 12,
        Event.freeDeps 2, Event.freeHandle 2, Event.freeDeps 1, Event.freeHandle 1]) ∧
    (∃ st2 trDeps,
      decRefList 5 (setH [(1, (⟨11, 1, some [2], 1, 21⟩ : Handle)),
          (2, (⟨12, 1, none, 0, 22⟩ : Handle))] 1
          { (⟨11, 1, some [2], 1, 21⟩ : Handle) with ref_count := 0 })
          (depsArr ⟨11, 1, some [2], 1, 21⟩) =
        some (st2, trDeps) ∧
      [Event.hit 1, Event.destruct 1 21 11, Event.hit 2, Event.destruct 2 22 12,
          Event.freeDeps 2, Event.freeHandle 2, Event.freeDeps 1, Event.freeHandle 1] =
        Event.hit 1 :: Event.destruct 1 21 11 :: trDeps ++
          [Event.freeDeps 1, Event.freeHandle 1] ∧
      ([] : State) = eraseH st2 1 ∧
      destructsOf [Event.hit 1, Event.destruct 1 21 11, Event.hit 2, Event.destruct 2 22 12,
        Event.freeDeps 2, Event.freeHandle 2, Event.freeDeps 1, Event.freeHandle 1] 1 = 1) :=
  ⟨by decide, rfl, rfl, by decide, by decide, by decide, rfl,
    @dec_ref_zero_destructor_order 5
      [(1, ⟨11, 1, some [2], 1, 21⟩), (2, ⟨12, 1, none, 0, 22⟩)] 1
      ⟨11, 1, some [2], 1, 21⟩ (by decide) rfl rfl (by decide) (by decide) (by decide)
      [] [Event.hit 1, Event.destruct 1 21 11, Event.hit 2, Event.destruct 2 22 12,
        Event.freeDeps 2, Event.freeHandle 2, Event.freeDeps 1, Event.freeHandle 1] rfl⟩

end HandleC

namespace HandleC

/-- C3, literal sequence refuted: after `create A, create B, create C,
add_dependency(A, C), add_dependency(B, C)` alone, releasing A and then
releasing B does NOT drive C's `ref_count` to 0: C was created with
`ref_count = 1` and the two edges raised it to 3, so after the two releases
it still has `ref_count = 1` and `D_c` has been invoked 0 times, not once. -/
theorem diamond_literal_counterexample :
    (diamondBuild.bind fun st =>
      (decRef 10 st 1).bind fun pA =>
      (decRef 10 pA.1 2).map fun pB =>
        (destructsOf (pA.2 ++ pB.2) 3, getH pB.1 3)) =
      some (0, some ⟨13, 1, none, 0, 23⟩) := by
  decide

/-- C3 (amended): the diamond scenario holds once the owner's own reference
to C is also released: after `create A (1), create B (2), create C (3)`,
`add_dependency(A, C)`, `add_dependency(B, C)` and releasing C's initial
reference (which only decrements C's count from 3 to 2), releasing A invokes
`D_a` and leaves C live with `ref_count = 1 ≥ 1`; then releasing B invokes
`D_b` and drives C's count to 0, invoking `D_c` exactly once; in total
`D_a`, `D_b`, `D_c` are each invoked exactly once, and the full event trace
splits as a prefix containing `D_a` and `D_b` but no `D_c`, then the single
`D_c` invocation, then only deallocations. -/
theorem diamond_scenario_with_owner_release :
    diamondBuild = some [(3, ⟨13, 3, none, 0, 23⟩), (2, ⟨12, 1, some [3], 1, 22⟩),
      (1, ⟨11, 1, some [3], 1, 21⟩)] ∧
    decRef 10 [(3, ⟨13, 3, none, 0, 23⟩), (2, ⟨12, 1, some [3], 1, 22⟩),
        (1, ⟨11, 1, some [3], 1, 21⟩)] 3 =
      some ([(3, ⟨13, 2, none, 0, 23⟩), (2, ⟨12, 1, some [3], 1, 22⟩),
        (1, ⟨11, 1, some [3], 1, 21⟩)], [Event.hit 3]) ∧
    decRef 10 [(3, ⟨13, 2, none, 0, 23⟩), (2, ⟨12, 1, some [3], 1, 22⟩),
        (1, ⟨11, 1, some [3], 1, 21⟩)] 1 =
      some ([(3, ⟨13, 1, none, 0, 23⟩), (2, ⟨12, 1, some [3], 1, 22⟩)],
        [Event.hit 1, Event.destruct 1 21 11, Event.hit 3,
          Event.freeDeps 1, Event.freeHandle 1]) ∧
    destructsOf [Event.hit 1, Event.destruct 1 21 11, Event.hit 3,
      Event.freeDeps 1, Event.freeHandle 1] 1 = 1 ∧
    destructsOf [Event.hit 1, Event.destruct 1 21 11, Event.hit 3,
      Event.freeDeps 1, Event.freeHandle 1] 3 = 0 ∧
    getH [(3, ⟨13, 1, none, 0, 23⟩), (2, ⟨12, 1, some [3], 1, 22⟩)] 3 =
      some ⟨13, 1, none, 0, 23⟩ ∧
    1 ≤ (⟨13, 1, none, 0, 23⟩ : Handle).ref_count ∧
    decRef 10 [(3, ⟨13, 1, none, 0, 23⟩), (2, ⟨12, 1, some [3], 1, 22⟩)] 2 =
      some ([], [Event.hit 2, Event.destruct 2 22 12, Event.hit 3, Event.destruct 3 23 13,
        Event.freeDeps 3, Event.freeHandle 3, Event.freeDeps 2, Event.freeHandle 2]) ∧
    ([Event.hit 3] ++
        [Event.hit 1, Event.destruct 1 21 11, Event.hit 3,
          Event.freeDeps 1, Event.freeHandle 1] ++
        [Event.hit 2, Event.destruct 2 22 12, Event.hit 3, Event.destruct 3 23 13,
          Event.freeDeps 3, Event.freeHandle 3, Event.freeDeps 2, Event.freeHandle 2] :
      List Event) =
      [Event.hit 3, Event.hit 1, Event.destruct 1 21 11, Event.hit 3,
        Event.freeDeps 1, Event.freeHandle 1, Event.hit 2, Event.destruct 2 22 12,
        Event.hit 3] ++ Event.destruct 3 23 13 ::
        [Event.freeDeps 3, Event.freeHandle 3, Event.freeDeps 2, Event.freeHandle 2] ∧
    destructsOf [Event.hit 3, Event.hit 1, Event.destruct 1 21 11, Event.hit 3,
      Event.freeDeps 1, Event.freeHandle 1, Event.hit 2, Event.destruct 2 22 12,
      Event.hit 3] 3 = 0 ∧
    destructsOf [Event.hit 3, Event.hit 1, Event.destruct 1 21 11, Event.hit 3,
      Event.freeDeps 1, Event.freeHandle 1, Event.hit 2, Event.destruct 2 22 12,
      Event.hit 3] 1 = 1 ∧
    destructsOf [Event.hit 3, Event.hit 1, Event.destruct 1 21 11, Event.hit 3,
      Event.freeDeps 1, Event.freeHandle 1, Event.hit 2, Event.destruct 2 22 12,
      Event.hit 3] 2 = 1 ∧
    destructsOf [Event.freeDeps 3, Event.freeHandle 3, Event.freeDeps 2,
      Event.freeHandle 2] 3 = 0 ∧
    destructsOf ([Event.hit 3] ++
      [Event.hit 1, Event.destruct 1 21 11, Event.hit 3,
        Event.freeDeps 1, Event.freeHandle 1] ++
      [Event.hit 2, Event.destruct 2 22 12, Event.hit 3, Event.destruct 3 23 13,
        Event.freeDeps 3, Event.freeHandle 3, Event.freeDeps 2, Event.freeHandle 2]) 3 = 1 := by
  decide

end HandleC
